import Mathlib

/-!
Verification of the IdleHands repository: progress-message rendering
(IR documents, Telegram/Discord serialization), the hook manager, and the
backend selection/health engine described in the design specification.

Pure functions of the TypeScript source are embedded as Lean functions;
JavaScript numbers that the code floors or compares to integers are
embedded as `Int`, strings as `String`, optional/nullable fields as
`Option`.
-/

namespace IdleHands

/-! ## IR document model (src/progress/ir.ts) -/

inductive IRStyle
  | plain
  | bold
  | dim
  | code
  deriving Repr, DecidableEq

structure IRSpan where
  text : String
  style : IRStyle
  deriving Repr, DecidableEq

structure IRLine where
  spans : List IRSpan
  deriving Repr, DecidableEq

inductive IRBlock
  | lines (lines : List IRLine) (monospace : Option Bool)
  | code (lines : List String) (lang : Option String)
  | markdown (markdown : String)
  | divider
  | spacer (lines : Option Int)
  deriving Repr, DecidableEq

structure IRDoc where
  blocks : List IRBlock
  deriving Repr, DecidableEq

def irLine (text : String) (style : IRStyle) : IRLine :=
  { spans := [{ text := text, style := style }] }

/-! ## Progress message renderer (src/progress/progress-message-renderer.ts) -/

structure ProgressToolTail where
  name : Option String
  stream : String
  lines : List String
  deriving Repr, DecidableEq

structure ProgressRenderInput where
  banner : Option String
  statusLine : Option String
  toolLines : Option (List String)
  toolTail : Option ProgressToolTail
  assistantMarkdown : Option String
  deriving Repr, DecidableEq

structure ProgressRenderOptions where
  maxToolLines : Int
  maxTailLines : Int
  maxAssistantChars : Int
  deriving Repr, DecidableEq

/-- `Partial<ProgressRenderOptions>`: every field optional. -/
structure ProgressRenderOptionsOverride where
  maxToolLines : Option Int
  maxTailLines : Option Int
  maxAssistantChars : Option Int
  deriving Repr, DecidableEq

/-- The constructor of `ProgressMessageRenderer`: fills defaults 6 / 4 / 2000. -/
def makeRenderer (opts : ProgressRenderOptionsOverride) : ProgressRenderOptions :=
  { maxToolLines := opts.maxToolLines.getD 6
    maxTailLines := opts.maxTailLines.getD 4
    maxAssistantChars := opts.maxAssistantChars.getD 2000 }

/-- `{ ...this.base, ...(override ?? {}) }` -/
def mergeOptions (base : ProgressRenderOptions) (ov : ProgressRenderOptionsOverride) :
    ProgressRenderOptions :=
  { maxToolLines := ov.maxToolLines.getD base.maxToolLines
    maxTailLines := ov.maxTailLines.getD base.maxTailLines
    maxAssistantChars := ov.maxAssistantChars.getD base.maxAssistantChars }

/-- `tail<T>(arr, n)`: last `n` elements (empty when `n ≤ 0`). -/
def tailList {α : Type} (arr : List α) (n : Int) : List α :=
  if n ≤ 0 then []
  else if (arr.length : Int) ≤ n then arr
  else arr.drop (arr.length - n.toNat)

/-- `clipEnd(s, maxChars)`: keep the last `maxChars - 1` characters behind an
ellipsis when the string is longer than `maxChars`. -/
def clipEnd (s : String) (maxChars : Int) : String :=
  if maxChars ≤ 0 then ""
  else if (s.length : Int) ≤ maxChars then s
  else "…" ++ (s.drop (s.length - (maxChars - 1).toNat))

/-- JavaScript `String.prototype.trim`, modelled on the character list so that
it is kernel-computable: strip leading and trailing whitespace. -/
def jsTrim (s : String) : String :=
  ⟨((s.data.dropWhile Char.isWhitespace).reverse.dropWhile Char.isWhitespace).reverse⟩

def thinkingFallback : String := "⏳ Thinking..."

/-- The top line of the rendered progress message: banner wins, then
status line, then the literal fallback. -/
def renderTopText (input : ProgressRenderInput) : String :=
  if jsTrim (input.banner.getD "") ≠ "" then jsTrim (input.banner.getD "")
  else if jsTrim (input.statusLine.getD "") ≠ "" then jsTrim (input.statusLine.getD "")
  else thinkingFallback

def renderTopStyle (input : ProgressRenderInput) : IRStyle :=
  if jsTrim (input.banner.getD "") ≠ "" then .bold else .dim

/-- The tool-summary block list of `render`. -/
def renderToolBlocks (o : ProgressRenderOptions) (input : ProgressRenderInput) :
    List IRBlock :=
  let toolLines := tailList ((input.toolLines.getD []).filter (fun l => !l.isEmpty))
    o.maxToolLines
  if toolLines.isEmpty then [] else [IRBlock.code toolLines none]

/-- The tool-tail block list of `render`. -/
def renderTailBlocks (o : ProgressRenderOptions) (input : ProgressRenderInput) :
    List IRBlock :=
  match input.toolTail with
  | none => []
  | some tt =>
      let name := jsTrim (tt.name.getD "")
      let stream := if tt.stream == "stderr" then "stderr" else "stdout"
      let lines := tailList (tt.lines.filter (fun l => !l.isEmpty)) o.maxTailLines
      if lines.isEmpty then []
      else
        [IRBlock.lines
            [irLine ("↳ " ++ stream ++ " tail" ++
              (if name ≠ "" then " (" ++ name ++ ")" else "")) .dim] none,
          IRBlock.code lines (some stream)]

/-- The assistant-markdown block list of `render`. -/
def renderAssistantBlocks (o : ProgressRenderOptions) (input : ProgressRenderInput) :
    List IRBlock :=
  let raw := jsTrim (input.assistantMarkdown.getD "")
  if raw ≠ "" then
    let a := clipEnd raw o.maxAssistantChars
    if jsTrim a ≠ "" then [IRBlock.markdown a] else []
  else []

/-- `ProgressMessageRenderer.render(input, override)`, with `base` the options
stored by the constructor. -/
def render (base : ProgressRenderOptions) (input : ProgressRenderInput)
    (ov : ProgressRenderOptionsOverride) : IRDoc :=
  let o := mergeOptions base ov
  let topBlock := IRBlock.lines [irLine (renderTopText input) (renderTopStyle input)] none
  let blocks := topBlock ::
    (renderToolBlocks o input ++ renderTailBlocks o input ++ renderAssistantBlocks o input)
  if blocks.isEmpty then
    { blocks := [IRBlock.lines [irLine thinkingFallback .dim] none] }
  else
    { blocks := blocks }

/-! ## Platform serializers
(src/progress/serialize-telegram.ts and src/progress/serialize-discord.ts)

`escapeHtml` and `markdownToTelegramHtml` live in src/bot/format.ts, outside
the embedded sources; the Telegram serializer is therefore parametric in
them, and every theorem about it holds for all implementations. -/

/-- `spanToHtml` of serialize-telegram.ts. -/
def spanToHtml (escapeHtml : String → String) (s : IRSpan) : String :=
  let t := escapeHtml s.text
  match s.style with
  | .bold => "<b>" ++ t ++ "</b>"
  | .code => "<code>" ++ t ++ "</code>"
  | .dim => "<i>" ++ t ++ "</i>"
  | .plain => t

/-- A newline repeated Math.max(1, lines ?? 1) times, for spacer blocks. -/
def newlineRepeat (n : Int) : String :=
  "".pushn '\n' (max 1 n).toNat

/-- `blockToHtml` of serialize-telegram.ts. -/
def blockToHtml (escapeHtml mdToHtml : String → String) (b : IRBlock) : String :=
  match b with
  | .spacer lines => newlineRepeat (lines.getD 1)
  | .divider => "────────"
  | .lines lines _ =>
      String.intercalate "\n"
        (lines.map (fun ln => String.join (ln.spans.map (spanToHtml escapeHtml))))
  | .code lines _ => "<pre>" ++ escapeHtml (String.intercalate "\n" lines) ++ "</pre>"
  | .markdown md => mdToHtml md

/-- `escapeCodeFence` of serialize-discord.ts: break up triple backticks with a
zero-width space. -/
def escapeCodeFence (s : String) : String :=
  s.replace "```" "``\u200B`"

/-- `spanToMd` of serialize-discord.ts. -/
def spanToMd (s : IRSpan) : String :=
  let t := s.text
  match s.style with
  | .bold => "**" ++ t ++ "**"
  | .code => "`" ++ (t.replace "`" "ˋ") ++ "`"
  | .dim => "*" ++ t ++ "*"
  | .plain => t

/-- `blockToMd` of serialize-discord.ts. -/
def blockToMd (b : IRBlock) : String :=
  match b with
  | .spacer lines => newlineRepeat (lines.getD 1)
  | .divider => "---"
  | .lines lines _ =>
      String.intercalate "\n" (lines.map (fun ln => String.join (ln.spans.map spanToMd)))
  | .code lines lang =>
      let lg := jsTrim (lang.getD "")
      "```" ++ lg ++ "\n" ++ escapeCodeFence (String.intercalate "\n" lines) ++ "\n```"
  | .markdown md => md

/-- The block-accumulation loop shared by `renderTelegramHtml` and
`renderDiscordMarkdown`: serialize whole blocks in order, maintaining the
joined output and whether any part has been pushed; stop (reporting
truncation) before the first block whose addition would exceed `maxLen`. -/
def serializeGo (blockFn : IRBlock → String) (maxLen : Nat) :
    List IRBlock → String → Bool → String × Bool
  | [], out, _ => (out, false)
  | b :: rest, out, hasParts =>
      let add := (if hasParts then "\n\n" else "") ++ blockFn b
      if maxLen < out.length + add.length then (out, true)
      else serializeGo blockFn maxLen rest (out ++ add) true

/-- The common tail of both serializers: append the ellipsis line when
truncation happened and it fits, then replace a blank result by the
fallback text. -/
def finishSerialized (maxLen : Nat) (r : String × Bool) : String :=
  let out := if r.2 = true ∧ r.1.length + 2 ≤ maxLen then r.1 ++ "\n…" else r.1
  if jsTrim out = "" then thinkingFallback else out

/-- `renderTelegramHtml(doc, opts)` (default limit 4096, floor 256). -/
def renderTelegramHtml (escapeHtml mdToHtml : String → String) (doc : IRDoc)
    (optMaxLen : Option Int) : String :=
  let maxLen := (max 256 (optMaxLen.getD 4096)).toNat
  finishSerialized maxLen
    (serializeGo (blockToHtml escapeHtml mdToHtml) maxLen doc.blocks "" false)

/-- `renderDiscordMarkdown(doc, opts)` (default limit 1900, floor 256). -/
def renderDiscordMarkdown (doc : IRDoc) (optMaxLen : Option Int) : String :=
  let maxLen := (max 256 (optMaxLen.getD 1900)).toNat
  finishSerialized maxLen (serializeGo blockToMd maxLen doc.blocks "" false)

/-- Specification-level join of the separator-prefixed serializations of the
first `k` blocks after the first one. -/
def joinTail (f : IRBlock → String) : List IRBlock → Nat → String
  | _, 0 => ""
  | [], _ + 1 => ""
  | b :: rest, k + 1 => "\n\n" ++ f b ++ joinTail f rest k

/-- Specification-level serialization of the first `k` blocks, joined with
blank-line separators. -/
def joinUpTo (f : IRBlock → String) (blocks : List IRBlock) (k : Nat) : String :=
  match blocks, k with
  | _, 0 => ""
  | [], _ + 1 => ""
  | b :: rest, k + 1 => f b ++ joinTail f rest k

/-- The output is obtained by greedily serializing whole blocks in document
order: some block count `k` is kept, every partial join up to `k` fits in
`maxLen`, the next block (when one exists) would not fit, and the output is
the kept join finished with the ellipsis/fallback rule. -/
def serializedGreedy (f : IRBlock → String) (maxLen : Nat) (blocks : List IRBlock)
    (out : String) : Prop :=
  ∃ k, k ≤ blocks.length ∧
    (∀ j, j ≤ k → (joinUpTo f blocks j).length ≤ maxLen) ∧
    (k < blocks.length → maxLen < (joinUpTo f blocks (k + 1)).length) ∧
    out = finishSerialized maxLen (joinUpTo f blocks k, decide (k < blocks.length))

/-! ## Hook manager (src/hooks/manager.ts)

Handlers are asynchronous functions; the shallow embedding gives each
handler a deterministic behavior on the payload: an optional thrown error
message, and the elapsed milliseconds observed by the slow-handler check. -/

/-- Outcome of awaiting one handler. -/
structure HandlerRun where
  thrown : Option String
  elapsedMs : Nat
  deriving Repr, DecidableEq

/-- A registered handler: its source tag and its behavior on the payload. -/
structure HookHandlerEntry (P : Type) where
  source : String
  fn : P → HandlerRun

/-- `HookManagerOptions` (the `context` thunk carries no decision logic). -/
structure HookManagerOptions where
  enabled : Option Bool
  strict : Option Bool
  warnMs : Option Int

/-- The `HookManager` state: configuration plus the registration list, kept
flat in registration order (the per-event `Map` view is `handlersFor`). -/
structure HookManager (P : Type) where
  enabled : Bool
  strict : Bool
  warnMs : Nat
  handlers : List (String × HookHandlerEntry P)

/-- The `HookManager` constructor: `enabled = opts.enabled !== false`,
`strict = opts.strict === true`, `warnMs = Math.max(0, Math.floor(opts.warnMs ?? 250))`. -/
def makeHookManager (P : Type) (opts : HookManagerOptions) : HookManager P :=
  { enabled := opts.enabled != some false
    strict := opts.strict == some true
    warnMs := (max 0 (opts.warnMs.getD 250)).toNat
    handlers := [] }

/-- `HookManager.on(event, handler, source)`: appends when enabled. -/
def hookOn {P : Type} (m : HookManager P) (event : String) (h : HookHandlerEntry P) :
    HookManager P :=
  if m.enabled then { m with handlers := m.handlers ++ [(event, h)] } else m

/-- `this.handlers.get(event)`: the registered handlers of one event, in
registration order. -/
def handlersFor {P : Type} (m : HookManager P) (event : String) :
    List (HookHandlerEntry P) :=
  (m.handlers.filter (fun e => e.1 == event)).map (fun e => e.2)

/-- What one call to `emit` did: handlers awaited (their sources, in order),
logger lines, and the error rethrown in strict mode, if any. -/
structure EmitOutcome where
  invoked : List String
  logs : List String
  thrown : Option String
  deriving Repr, DecidableEq

def failureMsg (event source errMsg : String) : String :=
  "[hooks] " ++ event ++ " handler failed (" ++ source ++ "): " ++ errMsg

def slowMsg (event source : String) (elapsed : Nat) : String :=
  "[hooks] " ++ event ++ " handler slow (" ++ source ++ "): " ++ toString elapsed ++ "ms"

/-- The handler loop of `HookManager.emit`: `try { await fn } catch { msg;
if strict throw; log msg } finally { slow warning }`. -/
def emitGo {P : Type} (event : String) (strict : Bool) (warnMs : Nat) (payload : P) :
    List (HookHandlerEntry P) → EmitOutcome
  | [] => { invoked := [], logs := [], thrown := none }
  | h :: rest =>
      let run := h.fn payload
      let slowLogs := if 0 < warnMs ∧ warnMs ≤ run.elapsedMs
        then [slowMsg event h.source run.elapsedMs] else []
      match run.thrown with
      | none =>
          let r := emitGo event strict warnMs payload rest
          { invoked := h.source :: r.invoked, logs := slowLogs ++ r.logs, thrown := r.thrown }
      | some errMsg =>
          let msg := failureMsg event h.source errMsg
          if strict then { invoked := [h.source], logs := slowLogs, thrown := some msg }
          else
            let r := emitGo event strict warnMs payload rest
            { invoked := h.source :: r.invoked, logs := msg :: (slowLogs ++ r.logs),
              thrown := r.thrown }

/-- `HookManager.emit(event, payload)`. A disabled manager, like an event
with no registered handlers, does nothing (the explicit empty-list early
return of the source coincides with the loop on an empty list). -/
def emit {P : Type} (m : HookManager P) (event : String) (payload : P) : EmitOutcome :=
  if m.enabled then emitGo event m.strict m.warnMs payload (handlersFor m event)
  else { invoked := [], logs := [], thrown := none }

/-- Whether a handler throws on the payload. -/
def handlerFails {P : Type} (payload : P) (e : HookHandlerEntry P) : Bool :=
  (e.fn payload).thrown.isSome


/-! ## Backend selection and health engine

The Probe Executor, Discovery Scanner, Plan Executor and Selection Planner
are described by the design specification but their implementation is not
part of the embedded source tree (the changelog records the behavior);
every definition below is modelled from the spec. -/

/-- Modelled from the spec: the total probe classification. -/
inductive Classification
  | ready
  | loading
  | down
  | unknown
  deriving Repr, DecidableEq

/-- Modelled from the spec: a transport-level failure: connection refused,
DNS failure, or timeout before a response was read. -/
inductive TransportFailure
  | refused
  | dns
  | timeout
  deriving Repr, DecidableEq

/-- Modelled from the spec: what one HTTP GET against one endpoint produced:
a readable response with a status code, a response that cannot be parsed as
expected, or a transport failure. -/
inductive EndpointOutcome
  | httpResponse (status : Nat)
  | malformed
  | transportError (k : TransportFailure)
  deriving Repr, DecidableEq

/-- Modelled from the spec: status-code interpretation: HTTP 200 is ready,
HTTP 503 is loading, any other status is unknown. -/
def classifyStatus (status : Nat) : Classification :=
  if status = 200 then .ready else if status = 503 then .loading else .unknown

/-- Modelled from the spec: the Probe Executor classification rule.
`GET /v1/models` is attempted first; only when it fails at transport level
is `GET /health` attempted; transport failure on both folds to `down`,
otherwise whichever response was obtained is classified by status, an
unparseable response giving `unknown`. Returns the classification and
whether the `/health` fallback was called. -/
def probeClassify (models health : EndpointOutcome) : Classification × Bool :=
  match models with
  | .httpResponse s => (classifyStatus s, false)
  | .malformed => (.unknown, false)
  | .transportError _ =>
      match health with
      | .httpResponse s => (classifyStatus s, true)
      | .malformed => (.unknown, true)
      | .transportError _ => (.down, true)

/-- Modelled from the spec: ProbeResult. -/
structure ProbeResult where
  host : String
  port : Nat
  classification : Classification
  httpStatus : Option Nat
  latencyMs : Nat
  detail : Option String
  deriving Repr, DecidableEq

/-- Modelled from the spec: the Probe Executor, producing a full ProbeResult
for one target from the two endpoint outcomes the network produced. -/
def probeExecutor (host : String) (port : Nat) (latencyMs : Nat)
    (models health : EndpointOutcome) : ProbeResult :=
  { host := host
    port := port
    classification := (probeClassify models health).1
    httpStatus :=
      match models, health with
      | .httpResponse s, _ => some s
      | .transportError _, .httpResponse s => some s
      | _, _ => none
    latencyMs := latencyMs
    detail := none }

/-! ### Discovery Scanner: port specification expansion -/

/-- Split a character list at every occurrence of a separator. -/
def splitChars (sep : Char) : List Char → List (List Char)
  | [] => [[]]
  | c :: rest =>
      let r := splitChars sep rest
      if c = sep then [] :: r
      else
        match r with
        | [] => [[c]]
        | g :: gs => (c :: g) :: gs

/-- Accumulate decimal digits; any non-digit character fails. -/
def parseDigitsGo : List Char → Nat → Option Nat
  | [], acc => some acc
  | c :: rest, acc =>
      if c.isDigit then parseDigitsGo rest (acc * 10 + (c.toNat - 48)) else none

/-- Modelled from the spec: parse one (whitespace-tolerant) port entry; an
empty or non-numeric entry is rejected with a descriptive error. -/
def parsePortEntry (cs : List Char) : Except String Nat :=
  let t := ((cs.dropWhile Char.isWhitespace).reverse.dropWhile Char.isWhitespace).reverse
  match t with
  | [] => .error ("invalid port: " ++ String.mk cs)
  | _ =>
      match parseDigitsGo t 0 with
      | some n => .ok n
      | none => .error ("invalid port: " ++ String.mk cs)

/-- The inclusive ascending run of `n` ports starting at `lo`. -/
def portRangeList (lo : Nat) : Nat → List Nat
  | 0 => []
  | n + 1 => lo :: portRangeList (lo + 1) n

/-- Remove duplicates, keeping first occurrences, tracking seen ports. -/
def dedupPortsGo : List Nat → List Nat → List Nat
  | [], _ => []
  | p :: rest, seen =>
      if p ∈ seen then dedupPortsGo rest seen else p :: dedupPortsGo rest (p :: seen)

def dedupPorts (l : List Nat) : List Nat := dedupPortsGo l []

/-- Error-propagating map over the entries of a comma-separated list. -/
def mapPorts (f : List Char → Except String Nat) :
    List (List Char) → Except String (List Nat)
  | [] => .ok []
  | x :: xs =>
      match f x with
      | .error e => .error e
      | .ok y =>
          match mapPorts f xs with
          | .ok ys => .ok (y :: ys)
          | .error e => .error e

/-- Combine the two parsed bounds of a range specification. -/
def expandRangeOf (s : String) (ra rb : Except String Nat) :
    Except String (List Nat) :=
  match ra, rb with
  | .ok lo, .ok hi =>
      if lo ≤ hi then .ok (portRangeList lo (hi + 1 - lo))
      else .error ("invalid port range: " ++ s)
  | .error e, _ => .error e
  | _, .error e => .error e

/-- A range specification must split into exactly two entries. -/
def expandRange (s : String) : List (List Char) → Except String (List Nat)
  | [a, b] => expandRangeOf s (parsePortEntry a) (parsePortEntry b)
  | _ => .error ("invalid port range: " ++ s)

/-- Deduplicate the ports of a successfully parsed comma list. -/
def expandList (r : Except String (List Nat)) : Except String (List Nat) :=
  match r with
  | .ok ports => .ok (dedupPorts ports)
  | .error e => .error e

/-- Modelled from the spec: expand a port specification — a single integer,
an explicit comma-separated list, or an inclusive `low-high` range — into
the concrete deduplicated list of ports to probe; invalid entries (and an
inverted range) are rejected with a descriptive error. -/
def expandPortSpec (s : String) : Except String (List Nat) :=
  let cs := s.data
  if cs.contains ',' then expandList (mapPorts parsePortEntry (splitChars ',' cs))
  else if cs.contains '-' then expandRange s (splitChars '-' cs)
  else (parsePortEntry cs).map (fun n => [n])

/-- Modelled from the spec: the Discovery Scanner expands the specification
first; only a successful expansion reaches the probing stage, so an invalid
specification produces an error before any network activity. -/
def scanPorts (probeFn : Nat → ProbeResult) (s : String) :
    Except String (List ProbeResult) :=
  (expandPortSpec s).map (fun ports => ports.map probeFn)

/-! ### Plan Executor -/

/-- Modelled from the spec: plan step kinds. -/
inductive StepKind
  | probe
  | runVerify
  | startBackend
  | stopBackend
  | wait
  deriving Repr, DecidableEq

/-- Modelled from the spec: one plan step: kind, label, timeout. -/
structure PlanStep where
  kind : StepKind
  label : String
  timeoutMs : Nat
  deriving Repr, DecidableEq

/-- Modelled from the spec: per-step outcome: success flag, elapsed time,
bounded output excerpt, embedded probe result for probe steps. -/
structure PlanStepResult where
  success : Bool
  elapsedMs : Nat
  outputExcerpt : String
  probe : Option ProbeResult
  deriving Repr, DecidableEq

/-- Modelled from the spec: the Plan Executor runs steps strictly in order
and stops at the first failing step; it returns the ordered step results and
an overall success flag that is true only when every step succeeded. -/
def executePlan (run : PlanStep → PlanStepResult) :
    List PlanStep → List PlanStepResult × Bool
  | [] => ([], true)
  | s :: rest =>
      let r := run s
      if r.success then
        let res := executePlan run rest
        (r :: res.1, res.2)
      else ([r], false)

/-- Index of the first step whose result fails. -/
def firstFailIdx (run : PlanStep → PlanStepResult) : List PlanStep → Option Nat
  | [] => none
  | s :: rest =>
      if (run s).success then (firstFailIdx run rest).map (fun i => i + 1) else some 0

/-! ### Selection Planner -/

/-- Modelled from the spec: one executed step of a plan with its outcome:
kind, success flag, the classification for probe steps, and the bounded
diagnostic excerpt captured for the step. -/
structure ExecutedStep where
  kind : StepKind
  success : Bool
  probeClass : Option Classification
  detail : String
  deriving Repr, DecidableEq

/-- Modelled from the spec: the deterministic environment one selection run
observes: the classification of each successive probe, whether stop and
start succeed, the result of each successive `verify_cmd` run, the
configurable retry bound for `loading`, and the diagnostic excerpt captured
per step kind. A probe past the provided list observes a backend gone
silent (`down`, the folding rule for abandoned calls). -/
structure SelectionEnv where
  probeOutcomes : List Classification
  stopSucceeds : Bool
  startSucceeds : Bool
  verifyOutcomes : List Bool
  loadingRetries : Nat
  stepDetail : StepKind → String

/-- Counters into the probe/verify outcome sequences. -/
structure RunCounters where
  probeIdx : Nat
  verifyIdx : Nat
  deriving Repr, DecidableEq

def nextProbe (env : SelectionEnv) (st : RunCounters) : Classification × RunCounters :=
  (env.probeOutcomes.getD st.probeIdx .down, { st with probeIdx := st.probeIdx + 1 })

def nextVerify (env : SelectionEnv) (st : RunCounters) : Bool × RunCounters :=
  (env.verifyOutcomes.getD st.verifyIdx false, { st with verifyIdx := st.verifyIdx + 1 })

/-- A probe step record: it succeeds exactly when the backend is ready. -/
def probeStep (env : SelectionEnv) (c : Classification) : ExecutedStep :=
  { kind := .probe, success := c == .ready, probeClass := some c,
    detail := env.stepDetail .probe }

def plainStep (env : SelectionEnv) (k : StepKind) (ok : Bool) : ExecutedStep :=
  { kind := k, success := ok, probeClass := none, detail := env.stepDetail k }

/-- How the reuse plan ends once no `loading` retry applies: `run_verify`
after a `ready` probe, giving up on any other classification. -/
def reuseTerminal (env : SelectionEnv) (st : RunCounters) :
    Classification → List ExecutedStep × RunCounters × Bool
  | .ready =>
      let vr := nextVerify env (nextProbe env st).2
      ([probeStep env .ready, plainStep env .runVerify vr.1], vr.2, vr.1)
  | c => ([probeStep env c], (nextProbe env st).2, false)

/-- Modelled from the spec: execute the reuse plan: a probe, retried up to
the configured bound while the backend is `loading`; `run_verify` exactly
when a probe classifies `ready`; `down` or `unknown` (or exhausting the
retries) gives up on reuse. Returns executed steps, updated counters, and
overall success. -/
def runReusePlan (env : SelectionEnv) : Nat → RunCounters →
    List ExecutedStep × RunCounters × Bool
  | 0, st => reuseTerminal env st (nextProbe env st).1
  | f + 1, st =>
      if (nextProbe env st).1 = .loading then
        let r := runReusePlan env f (nextProbe env st).2
        (probeStep env .loading :: r.1, r.2.1, r.2.2)
      else reuseTerminal env st (nextProbe env st).1

/-- Modelled from the spec: the restart plan shape. -/
def restartPlanKinds : List StepKind :=
  [.stopBackend, .startBackend, .wait, .probe, .runVerify]

/-- Modelled from the spec: execute the restart plan: best-effort stop (its
failure never aborts the plan), fail-fast start, wait, probe, and
`run_verify` exactly when the probe classifies `ready`. -/
def runRestartPlan (env : SelectionEnv) (st : RunCounters) :
    List ExecutedStep × RunCounters × Bool :=
  let stopR := plainStep env .stopBackend env.stopSucceeds
  if env.startSucceeds then
    let startR := plainStep env .startBackend true
    let waitR := plainStep env .wait true
    let pr := nextProbe env st
    if pr.1 = .ready then
      let vr := nextVerify env pr.2
      ([stopR, startR, waitR, probeStep env .ready, plainStep env .runVerify vr.1],
        vr.2, vr.1)
    else ([stopR, startR, waitR, probeStep env pr.1], pr.2, false)
  else ([stopR, plainStep env .startBackend false], st, false)

/-- Modelled from the spec: the strategy a SelectionDecision records:
reused, restarted after failed reuse, or force-restarted. -/
inductive Strategy
  | reuse
  | restart
  | forcedRestart
  deriving Repr, DecidableEq

/-- Modelled from the spec: the caller intent. -/
inductive Intent
  | reusePreferred
  | forcedRestart
  deriving Repr, DecidableEq

/-- The classification of the last probe step executed across the plans. -/
def lastProbeClass (plans : List (List ExecutedStep)) : Option Classification :=
  (plans.flatten.reverse.find? (fun s => s.kind == .probe)).bind (fun s => s.probeClass)

/-- The last failed step across the executed plans. -/
def lastFailedStep (plans : List (List ExecutedStep)) : Option ExecutedStep :=
  plans.flatten.reverse.find? (fun s => s.success == false)

/-- Modelled from the spec: SelectionDecision: the strategy ultimately used,
every executed plan in order, overall success, and the final classified
state of the backend (`none` on terminal failure). -/
structure SelectionDecision where
  strategy : Strategy
  executedPlans : List (List ExecutedStep)
  success : Bool
  final : Option Classification

/-- Modelled from the spec: the Selection Planner. Forced restart skips the
reuse path entirely and builds the restart plan; otherwise the reuse plan
runs first, and its failure substitutes a single restart plan — the only
point where the plan changes after execution has begun — whose own failure
is terminal. -/
def select (env : SelectionEnv) (intent : Intent) : SelectionDecision :=
  let st0 : RunCounters := { probeIdx := 0, verifyIdx := 0 }
  match intent with
  | .forcedRestart =>
      let r := runRestartPlan env st0
      { strategy := .forcedRestart, executedPlans := [r.1], success := r.2.2,
        final := if r.2.2 then lastProbeClass [r.1] else none }
  | .reusePreferred =>
      let r1 := runReusePlan env env.loadingRetries st0
      if r1.2.2 then
        { strategy := .reuse, executedPlans := [r1.1], success := true,
          final := lastProbeClass [r1.1] }
      else
        let r2 := runRestartPlan env r1.2.1
        { strategy := .restart, executedPlans := [r1.1, r2.1], success := r2.2.2,
          final := if r2.2.2 then lastProbeClass [r1.1, r2.1] else none }

/-- Modelled from the spec: the `select` command: exit code zero exactly when
the final classification after execution is `ready`; otherwise non-zero,
printing the trimmed failure detail of the last failed step. -/
def selectCommand (env : SelectionEnv) (intent : Intent) : Nat × String :=
  let d := select env intent
  if d.final = some .ready then (0, "ready")
  else (1, jsTrim (((lastFailedStep d.executedPlans).map (fun s => s.detail)).getD ""))

end IdleHands

namespace IdleHands

/-- C8: for every input and options override, `render` returns a non-empty
block list whose first block is the single top line: the trimmed banner when
non-empty (bold), otherwise the trimmed status line when non-empty, otherwise
the literal fallback (dim). -/
theorem render_first_block (base : ProgressRenderOptions)
    (input : ProgressRenderInput) (ov : ProgressRenderOptionsOverride) :
    (render base input ov).blocks ≠ [] ∧
    (render base input ov).blocks.head? =
      some (IRBlock.lines
        [irLine
          (if jsTrim (input.banner.getD "") ≠ "" then jsTrim (input.banner.getD "")
           else if jsTrim (input.statusLine.getD "") ≠ "" then jsTrim (input.statusLine.getD "")
           else "⏳ Thinking...")
          (if jsTrim (input.banner.getD "") ≠ "" then IRStyle.bold else IRStyle.dim)] none) := by
  unfold render
  simp only [List.isEmpty_cons]
  constructor
  · simp
  · simp [renderTopText, renderTopStyle, thinkingFallback]

/-- Concrete render: the all-empty input still yields a non-empty document. -/
theorem render_first_block_witness :
    (render (makeRenderer ⟨none, none, none⟩) ⟨none, none, none, none, none⟩
      ⟨none, none, none⟩).blocks ≠ [] :=
  (render_first_block (makeRenderer ⟨none, none, none⟩)
    ⟨none, none, none, none, none⟩ ⟨none, none, none⟩).1

theorem joinTail_zero (f : IRBlock → String) (l : List IRBlock) :
    joinTail f l 0 = "" := by
  cases l <;> rfl

theorem joinTail_succ (f : IRBlock → String) (b : IRBlock) (rest : List IRBlock)
    (k : Nat) : joinTail f (b :: rest) (k + 1) = ("\n\n" ++ f b) ++ joinTail f rest k :=
  rfl

theorem joinUpTo_zero (f : IRBlock → String) (l : List IRBlock) :
    joinUpTo f l 0 = "" := by
  cases l <;> rfl

theorem joinUpTo_succ (f : IRBlock → String) (b : IRBlock) (rest : List IRBlock)
    (k : Nat) : joinUpTo f (b :: rest) (k + 1) = f b ++ joinTail f rest k :=
  rfl

theorem serializeGo_cons (f : IRBlock → String) (maxLen : Nat) (b : IRBlock)
    (rest : List IRBlock) (out : String) :
    serializeGo f maxLen (b :: rest) out true =
      if maxLen < out.length + ("\n\n" ++ f b).length then (out, true)
      else serializeGo f maxLen rest (out ++ ("\n\n" ++ f b)) true :=
  rfl

theorem serializeGo_cons_first (f : IRBlock → String) (maxLen : Nat) (b : IRBlock)
    (rest : List IRBlock) :
    serializeGo f maxLen (b :: rest) "" false =
      if maxLen < ("" : String).length + ("" ++ f b).length then ("", true)
      else serializeGo f maxLen rest ("" ++ ("" ++ f b)) true :=
  rfl

/-- Characterization of `serializeGo` once a first part has been pushed:
some count `k` of the remaining blocks is appended, every intermediate join
fits, and the next block (when present) would not fit. -/
theorem serializeGo_from (f : IRBlock → String) (maxLen : Nat) :
    ∀ (blocks : List IRBlock) (out : String), out.length ≤ maxLen →
    ∃ k, k ≤ blocks.length ∧
      serializeGo f maxLen blocks out true =
        (out ++ joinTail f blocks k, decide (k < blocks.length)) ∧
      (∀ j, j ≤ k → (out ++ joinTail f blocks j).length ≤ maxLen) ∧
      (k < blocks.length → maxLen < (out ++ joinTail f blocks (k + 1)).length) := by
  intro blocks
  induction blocks with
  | nil =>
      intro out h
      refine ⟨0, Nat.le_refl _, ?_, ?_, ?_⟩
      · rw [joinTail_zero, String.append_empty]
        rfl
      · intro j hj
        interval_cases j
        rw [joinTail_zero, String.append_empty]
        exact h
      · intro hlt
        exact absurd hlt (by simp)
  | cons b rest ih =>
      intro out h
      by_cases hfit : maxLen < out.length + ("\n\n" ++ f b).length
      · refine ⟨0, Nat.zero_le _, ?_, ?_, ?_⟩
        · rw [serializeGo_cons, if_pos hfit, joinTail_zero, String.append_empty]
          have hd : decide (0 < (b :: rest).length) = true := by simp
          rw [hd]
        · intro j hj
          interval_cases j
          rw [joinTail_zero, String.append_empty]
          exact h
        · intro _
          have h3 : (out ++ joinTail f (b :: rest) (0 + 1)).length =
              out.length + ("\n\n" ++ f b).length := by
            rw [Nat.zero_add, joinTail_succ, joinTail_zero, String.append_empty,
              String.length_append]
          omega
      · have hlen : (out ++ ("\n\n" ++ f b)).length ≤ maxLen := by
          rw [String.length_append]
          omega
        obtain ⟨k1, hk1, heq, hfits, hex⟩ := ih (out ++ ("\n\n" ++ f b)) hlen
        refine ⟨k1 + 1, Nat.succ_le_succ hk1, ?_, ?_, ?_⟩
        · rw [serializeGo_cons, if_neg hfit, heq, joinTail_succ]
          have hd : decide (k1 < rest.length) = decide (k1 + 1 < (b :: rest).length) := by
            simp [Nat.succ_lt_succ_iff]
          rw [hd]
          simp [String.append_assoc]
        · intro j hj
          cases j with
          | zero =>
              rw [joinTail_zero, String.append_empty]
              exact h
          | succ j1 =>
              have hj1 := hfits j1 (Nat.le_of_succ_le_succ hj)
              rw [joinTail_succ, ← String.append_assoc]
              exact hj1
        · intro hlt
          have hx := hex (Nat.lt_of_succ_lt_succ hlt)
          rw [joinTail_succ, ← String.append_assoc]
          exact hx

/-- Characterization of the full serialization loop as a greedy whole-block
join of a maximal fitting piece of the document. -/
theorem serializeGo_greedy (f : IRBlock → String) (maxLen : Nat)
    (blocks : List IRBlock) :
    ∃ k, k ≤ blocks.length ∧
      serializeGo f maxLen blocks "" false =
        (joinUpTo f blocks k, decide (k < blocks.length)) ∧
      (∀ j, j ≤ k → (joinUpTo f blocks j).length ≤ maxLen) ∧
      (k < blocks.length → maxLen < (joinUpTo f blocks (k + 1)).length) := by
  have hz : ("" : String).length = 0 := rfl
  cases blocks with
  | nil =>
      refine ⟨0, Nat.le_refl _, ?_, ?_, ?_⟩
      · rw [joinUpTo_zero]
        rfl
      · intro j hj
        interval_cases j
        rw [joinUpTo_zero]
        omega
      · intro hlt
        exact absurd hlt (by simp)
  | cons b rest =>
      by_cases hfit : maxLen < ("" : String).length + ("" ++ f b).length
      · refine ⟨0, Nat.zero_le _, ?_, ?_, ?_⟩
        · rw [serializeGo_cons_first, if_pos hfit, joinUpTo_zero]
          have hd : decide (0 < (b :: rest).length) = true := by simp
          rw [hd]
        · intro j hj
          interval_cases j
          rw [joinUpTo_zero]
          omega
        · intro _
          have h3 : (joinUpTo f (b :: rest) (0 + 1)).length = (f b).length := by
            rw [Nat.zero_add, joinUpTo_succ, joinTail_zero, String.append_empty]
          rw [String.empty_append] at hfit
          omega
      · have hlen : ("" ++ ("" ++ f b) : String).length ≤ maxLen := by
          rw [String.empty_append, String.empty_append]
          rw [String.empty_append] at hfit
          omega
        obtain ⟨k1, hk1, heq, hfits, hex⟩ :=
          serializeGo_from f maxLen rest ("" ++ ("" ++ f b)) hlen
        have habs : ("" ++ ("" ++ f b) : String) = f b := by
          rw [String.empty_append, String.empty_append]
        rw [habs] at heq hfits hex
        refine ⟨k1 + 1, Nat.succ_le_succ hk1, ?_, ?_, ?_⟩
        · rw [serializeGo_cons_first, if_neg hfit, habs, heq, joinUpTo_succ]
          have hd : decide (k1 < rest.length) = decide (k1 + 1 < (b :: rest).length) := by
            simp [Nat.succ_lt_succ_iff]
          rw [hd]
        · intro j hj
          cases j with
          | zero =>
              rw [joinUpTo_zero]
              omega
          | succ j1 =>
              have hj1 := hfits j1 (Nat.le_of_succ_le_succ hj)
              rw [joinUpTo_succ]
              exact hj1
        · intro hlt
          have hx := hex (Nat.lt_of_succ_lt_succ hlt)
          rw [joinUpTo_succ]
          exact hx

/-- The finishing step keeps the output within the limit and never blank. -/
theorem finishSerialized_props (maxLen : Nat) (hm : 256 ≤ maxLen) (core : String)
    (t : Bool) (hcore : core.length ≤ maxLen) :
    (finishSerialized maxLen (core, t)).length ≤ maxLen ∧
    jsTrim (finishSerialized maxLen (core, t)) ≠ "" := by
  have hell : ("\n…" : String).length = 2 := by decide
  have hfb : thinkingFallback.length = 13 := by decide
  have hfbtrim : jsTrim thinkingFallback ≠ "" := by decide
  unfold finishSerialized
  dsimp only
  by_cases h1 : t = true ∧ core.length + 2 ≤ maxLen
  · rw [if_pos h1]
    by_cases h2 : jsTrim (core ++ "\n…") = ""
    · rw [if_pos h2]
      exact ⟨by omega, hfbtrim⟩
    · rw [if_neg h2]
      refine ⟨?_, h2⟩
      rw [String.length_append]
      omega
  · rw [if_neg h1]
    by_cases h2 : jsTrim core = ""
    · rw [if_pos h2]
      exact ⟨by omega, hfbtrim⟩
    · rw [if_neg h2]
      exact ⟨hcore, h2⟩

/-- Generic form of the serializer guarantees, for any block-serialization
function and any limit of at least 256. -/
theorem serializeRender_props (f : IRBlock → String) (maxLen : Nat)
    (hm : 256 ≤ maxLen) (blocks : List IRBlock) :
    (finishSerialized maxLen (serializeGo f maxLen blocks "" false)).length ≤ maxLen ∧
    jsTrim (finishSerialized maxLen (serializeGo f maxLen blocks "" false)) ≠ "" ∧
    serializedGreedy f maxLen blocks
      (finishSerialized maxLen (serializeGo f maxLen blocks "" false)) := by
  obtain ⟨k, hk, heq, hfits, hex⟩ := serializeGo_greedy f maxLen blocks
  rw [heq]
  obtain ⟨h1, h2⟩ :=
    finishSerialized_props maxLen hm (joinUpTo f blocks k)
      (decide (k < blocks.length)) (hfits k (Nat.le_refl k))
  exact ⟨h1, h2, k, hk, hfits, hex, rfl⟩

theorem toNat_max_ge (v : Int) : 256 ≤ (max 256 v).toNat := by
  have h : (256 : Int) ≤ max 256 v := le_max_left _ _
  omega

/-- C9: for every document and options value, `renderTelegramHtml` and
`renderDiscordMarkdown` return a string of length at most
`max 256 (floor maxLen)` (defaults 4096 and 1900), never blank, obtained by
serializing whole blocks in document order, stopping before the first block
whose addition would exceed the limit, with the ellipsis appended only on a
fitting truncation and a blank result replaced by the fallback text. -/
theorem progress_serializers_bounded (escapeHtml mdToHtml : String → String)
    (docT docD : IRDoc) (optT optD : Option Int) :
    (renderTelegramHtml escapeHtml mdToHtml docT optT).length ≤
        (max 256 (optT.getD 4096)).toNat ∧
    jsTrim (renderTelegramHtml escapeHtml mdToHtml docT optT) ≠ "" ∧
    serializedGreedy (blockToHtml escapeHtml mdToHtml)
      ((max 256 (optT.getD 4096)).toNat) docT.blocks
      (renderTelegramHtml escapeHtml mdToHtml docT optT) ∧
    (renderDiscordMarkdown docD optD).length ≤ (max 256 (optD.getD 1900)).toNat ∧
    jsTrim (renderDiscordMarkdown docD optD) ≠ "" ∧
    serializedGreedy blockToMd ((max 256 (optD.getD 1900)).toNat) docD.blocks
      (renderDiscordMarkdown docD optD) := by
  obtain ⟨a1, a2, a3⟩ :=
    serializeRender_props (blockToHtml escapeHtml mdToHtml)
      ((max 256 (optT.getD 4096)).toNat) (toNat_max_ge (optT.getD 4096)) docT.blocks
  obtain ⟨b1, b2, b3⟩ :=
    serializeRender_props blockToMd
      ((max 256 (optD.getD 1900)).toNat) (toNat_max_ge (optD.getD 1900)) docD.blocks
  exact ⟨a1, a2, a3, b1, b2, b3⟩

/-- Concrete instantiation of the serializer guarantees. -/
theorem progress_serializers_bounded_witness :
    jsTrim (renderTelegramHtml id id ⟨[]⟩ none) ≠ "" ∧
    jsTrim (renderDiscordMarkdown ⟨[]⟩ none) ≠ "" :=
  ⟨(progress_serializers_bounded id id ⟨[]⟩ ⟨[]⟩ none none).2.1,
   (progress_serializers_bounded id id ⟨[]⟩ ⟨[]⟩ none none).2.2.2.2.1⟩


theorem emitGo_lax {P : Type} (event : String) (warnMs : Nat) (payload : P) :
    ∀ entries : List (HookHandlerEntry P),
    (emitGo event false warnMs payload entries).thrown = none ∧
    (emitGo event false warnMs payload entries).invoked =
      entries.map (fun e => e.source) ∧
    ∀ e ∈ entries, ∀ msg, (e.fn payload).thrown = some msg →
      failureMsg event e.source msg ∈ (emitGo event false warnMs payload entries).logs := by
  intro entries
  induction entries with
  | nil =>
      refine ⟨rfl, rfl, ?_⟩
      intro e he
      cases he
  | cons h rest ih =>
      obtain ⟨ih1, ih2, ih3⟩ := ih
      cases hth : (h.fn payload).thrown with
      | none =>
          refine ⟨?_, ?_, ?_⟩
          · simp [emitGo, hth, ih1]
          · simp [emitGo, hth, ih2]
          · intro e he msg hmsg
            rcases List.mem_cons.mp he with he | he
            · subst he
              rw [hth] at hmsg
              cases hmsg
            · have hin := ih3 e he msg hmsg
              simp [emitGo, hth, hin]
      | some errMsg =>
          refine ⟨?_, ?_, ?_⟩
          · simp [emitGo, hth, ih1]
          · simp [emitGo, hth, ih2]
          · intro e he msg hmsg
            rcases List.mem_cons.mp he with he | he
            · subst he
              rw [hth] at hmsg
              cases hmsg
              simp [emitGo, hth]
            · have hin := ih3 e he msg hmsg
              simp [emitGo, hth, hin]

theorem emitGo_strict_ok {P : Type} (event : String) (warnMs : Nat) (payload : P) :
    ∀ entries : List (HookHandlerEntry P),
    (∀ e ∈ entries, handlerFails payload e = false) →
    (emitGo event true warnMs payload entries).thrown = none ∧
    (emitGo event true warnMs payload entries).invoked =
      entries.map (fun e => e.source) := by
  intro entries
  induction entries with
  | nil => exact fun _ => ⟨rfl, rfl⟩
  | cons h rest ih =>
      intro hall
      have hh : (h.fn payload).thrown = none := by
        have := hall h (List.mem_cons_self _ _)
        unfold handlerFails at this
        cases hx : (h.fn payload).thrown with
        | none => rfl
        | some v => rw [hx] at this; cases this
      obtain ⟨ih1, ih2⟩ := ih (fun e he => hall e (List.mem_cons_of_mem _ he))
      constructor
      · simp [emitGo, hh, ih1]
      · simp [emitGo, hh, ih2]

theorem emitGo_strict_throw {P : Type} (event : String) (warnMs : Nat) (payload : P) :
    ∀ (pre : List (HookHandlerEntry P)) (e : HookHandlerEntry P)
      (post : List (HookHandlerEntry P)) (msg : String),
    (∀ x ∈ pre, handlerFails payload x = false) →
    (e.fn payload).thrown = some msg →
    (emitGo event true warnMs payload (pre ++ e :: post)).invoked =
      pre.map (fun x => x.source) ++ [e.source] ∧
    (emitGo event true warnMs payload (pre ++ e :: post)).thrown =
      some (failureMsg event e.source msg) := by
  intro pre
  induction pre with
  | nil =>
      intro e post msg _ hth
      constructor
      · simp [emitGo, hth]
      · simp [emitGo, hth]
  | cons h rest ih =>
      intro e post msg hall hth
      have hh : (h.fn payload).thrown = none := by
        have := hall h (List.mem_cons_self _ _)
        unfold handlerFails at this
        cases hx : (h.fn payload).thrown with
        | none => rfl
        | some v => rw [hx] at this; cases this
      obtain ⟨ih1, ih2⟩ := ih e post msg (fun x hx => hall x (List.mem_cons_of_mem _ hx)) hth
      constructor
      · simp only [List.cons_append]
        simp [emitGo, hh, ih1]
      · simp only [List.cons_append]
        simp [emitGo, hh, ih2]

theorem failureMsg_contains (event source msg : String) :
    (∃ a b, (failureMsg event source msg).data = a ++ event.data ++ b) ∧
    (∃ a b, (failureMsg event source msg).data = a ++ source.data ++ b) := by
  constructor
  · refine ⟨("[hooks] " : String).data,
      (" handler failed (" ++ source ++ "): " ++ msg : String).data, ?_⟩
    simp [failureMsg, String.data_append, List.append_assoc]
  · refine ⟨("[hooks] " ++ event ++ " handler failed (" : String).data,
      ("): " ++ msg : String).data, ?_⟩
    simp [failureMsg, String.data_append, List.append_assoc]

/-- C10: on an enabled manager, registration appends to the per-event handler
list; `emit` awaits the handlers of the event in registration order; with
strict mode off a throwing handler is logged, every later handler still runs
and `emit` never rethrows; with strict mode on, `emit` stops at the first
throwing handler and rethrows an error whose message contains the event name
and the handler source. -/
theorem hook_emit_order_and_errors {P : Type} (m : HookManager P) (event : String)
    (payload : P) (hen : m.enabled = true) :
    (∀ h, handlersFor (hookOn m event h) event = handlersFor m event ++ [h]) ∧
    (m.strict = false →
      (emit m event payload).thrown = none ∧
      (emit m event payload).invoked = (handlersFor m event).map (fun e => e.source) ∧
      (∀ e ∈ handlersFor m event, ∀ msg, (e.fn payload).thrown = some msg →
        failureMsg event e.source msg ∈ (emit m event payload).logs)) ∧
    (m.strict = true →
      ((∀ e ∈ handlersFor m event, handlerFails payload e = false) →
        (emit m event payload).thrown = none ∧
        (emit m event payload).invoked = (handlersFor m event).map (fun e => e.source)) ∧
      (∀ pre e post msg, handlersFor m event = pre ++ e :: post →
        (∀ x ∈ pre, handlerFails payload x = false) →
        (e.fn payload).thrown = some msg →
        (emit m event payload).invoked = pre.map (fun x => x.source) ++ [e.source] ∧
        (emit m event payload).thrown = some (failureMsg event e.source msg) ∧
        (∃ a b, (failureMsg event e.source msg).data = a ++ event.data ++ b) ∧
        (∃ a b, (failureMsg event e.source msg).data = a ++ e.source.data ++ b))) := by
  have hemit : emit m event payload =
      emitGo event m.strict m.warnMs payload (handlersFor m event) := by
    unfold emit
    rw [hen]
    simp
  refine ⟨?_, ?_, ?_⟩
  · intro h
    unfold hookOn handlersFor
    rw [hen]
    simp
  · intro hs
    rw [hemit, hs]
    obtain ⟨h1, h2, h3⟩ := emitGo_lax event m.warnMs payload (handlersFor m event)
    exact ⟨h1, h2, h3⟩
  · intro hs
    rw [hemit, hs]
    constructor
    · intro hall
      exact emitGo_strict_ok event m.warnMs payload (handlersFor m event) hall
    · intro pre e post msg hsplit hpre hth
      rw [hsplit]
      obtain ⟨h1, h2⟩ := emitGo_strict_throw event m.warnMs payload pre e post msg hpre hth
      exact ⟨h1, h2, failureMsg_contains event e.source msg⟩

def hookWitnessFail : HookHandlerEntry Nat :=
  { source := "pluginA", fn := fun _ => { thrown := some "boom", elapsedMs := 0 } }

def hookWitnessOk : HookHandlerEntry Nat :=
  { source := "pluginB", fn := fun _ => { thrown := none, elapsedMs := 0 } }

def hookWitnessManager (strict : Bool) : HookManager Nat :=
  { enabled := true, strict := strict, warnMs := 250,
    handlers := [("turn_end", hookWitnessFail), ("turn_end", hookWitnessOk)] }

/-- Concrete instantiation: a failing first handler is logged and skipped in
lax mode, rethrown in strict mode. -/
theorem hook_emit_order_and_errors_witness :
    (emit (hookWitnessManager false) "turn_end" 0).thrown = none ∧
    (emit (hookWitnessManager false) "turn_end" 0).invoked = ["pluginA", "pluginB"] ∧
    (emit (hookWitnessManager true) "turn_end" 0).thrown =
      some (failureMsg "turn_end" "pluginA" "boom") := by
  obtain ⟨-, hlax, -⟩ :=
    hook_emit_order_and_errors (hookWitnessManager false) "turn_end" 0 rfl
  obtain ⟨h1, h2, -⟩ := hlax rfl
  obtain ⟨-, -, hstrict⟩ :=
    hook_emit_order_and_errors (hookWitnessManager true) "turn_end" 0 rfl
  obtain ⟨-, hthrow⟩ := hstrict rfl
  have hsplit : handlersFor (hookWitnessManager true) "turn_end" =
      [] ++ hookWitnessFail :: [hookWitnessOk] := by rfl
  have hpre : ∀ x ∈ ([] : List (HookHandlerEntry Nat)), handlerFails 0 x = false := by
    intro x hx
    cases hx
  obtain ⟨-, ht, -, -⟩ := hthrow [] hookWitnessFail [hookWitnessOk] "boom" hsplit hpre rfl
  refine ⟨h1, ?_, ht⟩
  rw [h2]
  rfl


/-- C1: every probe attempt yields exactly one of the four classifications,
and by the stated rule: HTTP 200 on /v1/models is ready without the /health
fallback being called, HTTP 503 is loading, transport failure on both
endpoints is down, any other status or an unparseable response is unknown. -/
theorem probe_classification_rule (models health : EndpointOutcome) :
    ((probeClassify models health).1 = .ready ∨
      (probeClassify models health).1 = .loading ∨
      (probeClassify models health).1 = .down ∨
      (probeClassify models health).1 = .unknown) ∧
    (models = .httpResponse 200 →
      probeClassify models health = (.ready, false)) ∧
    (models = .httpResponse 503 → (probeClassify models health).1 = .loading) ∧
    (∀ k, models = .transportError k → health = .httpResponse 503 →
      (probeClassify models health).1 = .loading) ∧
    (∀ k1 k2, models = .transportError k1 → health = .transportError k2 →
      (probeClassify models health).1 = .down) ∧
    (∀ st, models = .httpResponse st → st ≠ 200 → st ≠ 503 →
      (probeClassify models health).1 = .unknown) ∧
    (models = .malformed → (probeClassify models health).1 = .unknown) ∧
    (∀ k, models = .transportError k → health = .malformed →
      (probeClassify models health).1 = .unknown) := by
  refine ⟨?_, ?_, ?_, ?_, ?_, ?_, ?_, ?_⟩
  · cases hc : (probeClassify models health).1 <;> simp
  · rintro rfl
    rfl
  · rintro rfl
    rfl
  · rintro k rfl rfl
    rfl
  · rintro k1 k2 rfl rfl
    rfl
  · rintro st rfl h200 h503
    simp [probeClassify, classifyStatus, h200, h503]
  · rintro rfl
    rfl
  · rintro k rfl rfl
    rfl

/-- Concrete instantiation of the probe classification rule. -/
theorem probe_classification_rule_witness :
    probeClassify (.httpResponse 200) (.transportError .timeout) = (.ready, false) ∧
    (probeClassify (.transportError .refused) (.transportError .dns)).1 = .down ∧
    (probeClassify (.httpResponse 404) .malformed).1 = .unknown :=
  ⟨(probe_classification_rule (.httpResponse 200) (.transportError .timeout)).2.1 rfl,
    (probe_classification_rule (.transportError .refused)
      (.transportError .dns)).2.2.2.2.1 .refused .dns rfl rfl,
    (probe_classification_rule (.httpResponse 404) .malformed).2.2.2.2.2.1 404 rfl
      (by decide) (by decide)⟩

/-- C3: the Plan Executor is fail-fast: the overall flag is true exactly when
every step succeeds; with no failing step the results cover all steps in
order; with a first failing step at index `i` the results are exactly those
of the first `i + 1` steps and the flag is false. -/
theorem executePlan_failfast (run : PlanStep → PlanStepResult)
    (steps : List PlanStep) :
    ((executePlan run steps).2 = true ↔ ∀ s ∈ steps, (run s).success = true) ∧
    (firstFailIdx run steps = none → (executePlan run steps).1 = steps.map run) ∧
    (∀ i, firstFailIdx run steps = some i →
      (executePlan run steps).1 = (steps.take (i + 1)).map run ∧
      (executePlan run steps).2 = false) := by
  induction steps with
  | nil =>
      refine ⟨by simp [executePlan], fun _ => rfl, ?_⟩
      intro i h
      simp [firstFailIdx] at h
  | cons s rest ih =>
      obtain ⟨ih1, ih2, ih3⟩ := ih
      by_cases hs : (run s).success = true
      · refine ⟨?_, ?_, ?_⟩
        · simp [executePlan, hs, ih1]
        · intro hnone
          cases hf : firstFailIdx run rest with
          | none => simp [executePlan, hs, List.map_cons, ih2 hf]
          | some j =>
              rw [firstFailIdx, if_pos hs, hf] at hnone
              cases hnone
        · intro i hi
          rw [firstFailIdx, if_pos hs] at hi
          cases hf : firstFailIdx run rest with
          | none => rw [hf] at hi; cases hi
          | some j =>
              rw [hf] at hi
              injection hi with hij
              obtain ⟨hr1, hr2⟩ := ih3 j hf
              subst hij
              constructor
              · simp [executePlan, hs, hr1]
              · simp [executePlan, hs, hr2]
      · have hs0 : (run s).success = false := by
          cases hx : (run s).success
          · rfl
          · exact absurd hx hs
        refine ⟨?_, ?_, ?_⟩
        · simp [executePlan, hs0]
        · intro hnone
          rw [firstFailIdx, if_neg (by simp [hs0])] at hnone
          cases hnone
        · intro i hi
          rw [firstFailIdx, if_neg (by simp [hs0])] at hi
          injection hi with hij
          subst hij
          constructor
          · simp [executePlan, hs0]
          · simp [executePlan, hs0]

def witPlanRun : PlanStep → PlanStepResult := fun s =>
  { success := s.label != "B", elapsedMs := 5, outputExcerpt := "", probe := none }

def witPlanSteps : List PlanStep :=
  [{ kind := .startBackend, label := "A", timeoutMs := 100 },
   { kind := .runVerify, label := "B", timeoutMs := 100 },
   { kind := .probe, label := "C", timeoutMs := 100 }]

/-- Concrete fail-fast run: A succeeds, B fails, C is never attempted. -/
theorem executePlan_failfast_witness :
    (executePlan witPlanRun witPlanSteps).1 =
      [witPlanRun { kind := .startBackend, label := "A", timeoutMs := 100 },
       witPlanRun { kind := .runVerify, label := "B", timeoutMs := 100 }] ∧
    (executePlan witPlanRun witPlanSteps).2 = false := by
  have h := (executePlan_failfast witPlanRun witPlanSteps).2.2 1 (by rfl)
  exact ⟨h.1, h.2⟩


theorem portRangeList_mem :
    ∀ (n lo p : Nat), p ∈ portRangeList lo n ↔ lo ≤ p ∧ p < lo + n := by
  intro n
  induction n with
  | zero =>
      intro lo p
      simp [portRangeList]
  | succ m ih =>
      intro lo p
      rw [portRangeList]
      simp only [List.mem_cons, ih (lo + 1) p]
      omega

theorem portRangeList_nodup : ∀ (n lo : Nat), (portRangeList lo n).Nodup := by
  intro n
  induction n with
  | zero =>
      intro lo
      simp [portRangeList]
  | succ m ih =>
      intro lo
      rw [portRangeList]
      refine List.nodup_cons.mpr ⟨?_, ih (lo + 1)⟩
      rw [portRangeList_mem]
      omega

theorem dedupPortsGo_mem :
    ∀ (l seen : List Nat) (p : Nat),
      p ∈ dedupPortsGo l seen ↔ p ∈ l ∧ p ∉ seen := by
  intro l
  induction l with
  | nil =>
      intro seen p
      simp [dedupPortsGo]
  | cons q rest ih =>
      intro seen p
      by_cases hq : q ∈ seen
      · rw [dedupPortsGo, if_pos hq, ih]
        constructor
        · rintro ⟨h1, h2⟩
          exact ⟨List.mem_cons_of_mem _ h1, h2⟩
        · rintro ⟨h1, h2⟩
          rcases List.mem_cons.mp h1 with rfl | h1
          · exact absurd hq h2
          · exact ⟨h1, h2⟩
      · rw [dedupPortsGo, if_neg hq]
        simp only [List.mem_cons, ih (q :: seen) p |>.symm]
        constructor
        · rintro (rfl | h)
          · exact ⟨Or.inl rfl, hq⟩
          · rw [ih] at h
            simp only [List.mem_cons] at h
            exact ⟨Or.inr h.1, fun hp => h.2 (Or.inr hp)⟩
        · rintro ⟨rfl | h1, h2⟩
          · exact Or.inl rfl
          · by_cases hpq : p = q
            · exact Or.inl hpq
            · right
              rw [ih]
              simp only [List.mem_cons]
              exact ⟨h1, fun hp => by rcases hp with rfl | hp; exact hpq rfl; exact h2 hp⟩

theorem dedupPortsGo_nodup : ∀ (l seen : List Nat), (dedupPortsGo l seen).Nodup := by
  intro l
  induction l with
  | nil =>
      intro seen
      simp [dedupPortsGo]
  | cons q rest ih =>
      intro seen
      by_cases hq : q ∈ seen
      · rw [dedupPortsGo, if_pos hq]
        exact ih seen
      · rw [dedupPortsGo, if_neg hq]
        refine List.nodup_cons.mpr ⟨?_, ih (q :: seen)⟩
        rw [dedupPortsGo_mem]
        rintro ⟨-, h2⟩
        exact h2 (List.mem_cons_self _ _)

theorem dedupPorts_mem (l : List Nat) (p : Nat) : p ∈ dedupPorts l ↔ p ∈ l := by
  unfold dedupPorts
  rw [dedupPortsGo_mem]
  simp

theorem dedupPorts_nodup (l : List Nat) : (dedupPorts l).Nodup :=
  dedupPortsGo_nodup l []

theorem mapPorts_ok_mem (f : List Char → Except String Nat) :
    ∀ (entries : List (List Char)) (ports : List Nat),
      mapPorts f entries = .ok ports →
      ∀ p, p ∈ ports ↔ ∃ e ∈ entries, f e = .ok p := by
  intro entries
  induction entries with
  | nil =>
      intro ports h p
      cases h
      simp
  | cons x xs ih =>
      intro ports h p
      rw [mapPorts] at h
      cases hx : f x with
      | error e =>
          rw [hx] at h
          cases h
      | ok y =>
          rw [hx] at h
          cases hxs : mapPorts f xs with
          | error e =>
              rw [hxs] at h
              cases h
          | ok ys =>
              rw [hxs] at h
              cases h
              simp only [List.mem_cons, ih ys hxs p]
              constructor
              · rintro (rfl | ⟨e, he, hfe⟩)
                · exact ⟨x, Or.inl rfl, hx⟩
                · exact ⟨e, Or.inr he, hfe⟩
              · rintro ⟨e, he | he, hfe⟩
                · subst he
                  rw [hx] at hfe
                  injection hfe with hy
                  exact Or.inl hy.symm
                · exact Or.inr ⟨e, he, hfe⟩

theorem expandRangeOf_ok (s : String) (lo hi : Nat) :
    expandRangeOf s (.ok lo) (.ok hi) =
      if lo ≤ hi then .ok (portRangeList lo (hi + 1 - lo))
      else .error ("invalid port range: " ++ s) := rfl

theorem expandRange_pair (s : String) (a b : List Char) :
    expandRange s [a, b] = expandRangeOf s (parsePortEntry a) (parsePortEntry b) := rfl

theorem expandPortSpec_nodup (s : String) :
    ∀ ports, expandPortSpec s = .ok ports → ports.Nodup := by
  intro ports h
  unfold expandPortSpec at h
  by_cases hc : s.data.contains ','
  · rw [if_pos hc] at h
    cases hm : mapPorts parsePortEntry (splitChars ',' s.data) with
    | error e =>
        rw [hm] at h
        cases h
    | ok ps =>
        rw [hm] at h
        cases h
        exact dedupPorts_nodup ps
  · rw [if_neg hc] at h
    by_cases hd : s.data.contains '-'
    · rw [if_pos hd] at h
      rcases hs : splitChars '-' s.data with _ | ⟨a, _ | ⟨b, _ | ⟨c, t3⟩⟩⟩
      · rw [hs] at h
        cases h
      · rw [hs] at h
        cases h
      · rw [hs, expandRange_pair] at h
        cases hpa : parsePortEntry a with
        | error e =>
            rw [hpa] at h
            cases hpb : parsePortEntry b with
            | error e2 => rw [hpb] at h; cases h
            | ok hi => rw [hpb] at h; cases h
        | ok lo =>
            cases hpb : parsePortEntry b with
            | error e => rw [hpa, hpb] at h; cases h
            | ok hi =>
                rw [hpa, hpb, expandRangeOf_ok] at h
                by_cases hle : lo ≤ hi
                · rw [if_pos hle] at h
                  cases h
                  exact portRangeList_nodup _ _
                · rw [if_neg hle] at h
                  cases h
      · rw [hs] at h
        cases h
    · rw [if_neg hd] at h
      cases hp : parsePortEntry s.data with
      | error e =>
          rw [hp] at h
          cases h
      | ok n =>
          rw [hp] at h
          cases h
          simp

/-- C2: a valid port specification expands to exactly the mathematically
implied set of ports — a comma list to its deduplicated entries, a
`low-high` range to exactly the ports between the bounds inclusive, a single
integer to itself — with no duplicates; an invalid specification is rejected
with a descriptive error, and the scan then performs no probing at all (its
outcome does not depend on the prober). -/
theorem port_spec_expansion (s : String) :
    (∀ ports, expandPortSpec s = .ok ports → ports.Nodup) ∧
    (s.data.contains ',' = true →
      ∀ ports, mapPorts parsePortEntry (splitChars ',' s.data) = .ok ports →
        expandPortSpec s = .ok (dedupPorts ports) ∧
        ∀ p, p ∈ dedupPorts ports ↔
          ∃ e ∈ splitChars ',' s.data, parsePortEntry e = .ok p) ∧
    (s.data.contains ',' = false → s.data.contains '-' = true →
      ∀ a b, splitChars '-' s.data = [a, b] →
      ∀ lo hi, parsePortEntry a = .ok lo → parsePortEntry b = .ok hi → lo ≤ hi →
        expandPortSpec s = .ok (portRangeList lo (hi + 1 - lo)) ∧
        ∀ p, p ∈ portRangeList lo (hi + 1 - lo) ↔ lo ≤ p ∧ p ≤ hi) ∧
    (s.data.contains ',' = false → s.data.contains '-' = false →
      ∀ n, parsePortEntry s.data = .ok n → expandPortSpec s = .ok [n]) ∧
    (∀ e, expandPortSpec s = .error e →
      ∀ probeFn1 probeFn2 : Nat → ProbeResult,
        scanPorts probeFn1 s = .error e ∧
        scanPorts probeFn1 s = scanPorts probeFn2 s) := by
  refine ⟨expandPortSpec_nodup s, ?_, ?_, ?_, ?_⟩
  · intro hc ports hm
    constructor
    · unfold expandPortSpec
      rw [if_pos hc, hm]
      rfl
    · intro p
      rw [dedupPorts_mem]
      exact mapPorts_ok_mem parsePortEntry _ ports hm p
  · intro hc hd a b hs lo hi hpa hpb hle
    constructor
    · unfold expandPortSpec
      rw [if_neg (by rw [hc]; decide), if_pos hd, hs, expandRange_pair, hpa, hpb,
        expandRangeOf_ok, if_pos hle]
    · intro p
      rw [portRangeList_mem]
      omega
  · intro hc hd n hp
    unfold expandPortSpec
    rw [if_neg (by rw [hc]; decide), if_neg (by rw [hd]; decide), hp]
    rfl
  · intro e he probeFn1 probeFn2
    unfold scanPorts
    rw [he]
    exact ⟨rfl, rfl⟩

/-- Concrete instantiations: a list with a duplicate, a range, a single
port, and a rejected invalid specification. -/
theorem port_spec_expansion_witness :
    expandPortSpec "8080,8081,8080" = .ok [8080, 8081] ∧
    expandPortSpec "9000-9003" = .ok [9000, 9001, 9002, 9003] ∧
    expandPortSpec "7070" = .ok [7070] ∧
    scanPorts (fun p => probeExecutor "localhost" p 1 .malformed .malformed)
      "80x0" = .error "invalid port: 80x0" := by
  have h1 := (port_spec_expansion "8080,8081,8080").2.1 rfl [8080, 8081, 8080] rfl
  have h2 := (port_spec_expansion "9000-9003").2.2.1 rfl rfl
    ("9000".data) ("9003".data) rfl 9000 9003 rfl rfl (by omega)
  have h3 := (port_spec_expansion "7070").2.2.2.1 rfl rfl 7070 rfl
  have h4 := ((port_spec_expansion "80x0").2.2.2.2 "invalid port: 80x0" rfl
    (fun p => probeExecutor "localhost" p 1 .malformed .malformed)
    (fun p => probeExecutor "localhost" p 1 .malformed .malformed)).1
  exact ⟨h1.1, h2.1, h3, h4⟩


theorem reuseTerminal_ready (env : SelectionEnv) (st : RunCounters) :
    reuseTerminal env st .ready =
      ([probeStep env .ready,
        plainStep env .runVerify (nextVerify env (nextProbe env st).2).1],
        (nextVerify env (nextProbe env st).2).2,
        (nextVerify env (nextProbe env st).2).1) := rfl

theorem reuseTerminal_other (env : SelectionEnv) (st : RunCounters)
    (c : Classification) (h : c ≠ .ready) :
    reuseTerminal env st c = ([probeStep env c], (nextProbe env st).2, false) := by
  cases c
  · exact absurd rfl h
  · rfl
  · rfl
  · rfl

theorem runReusePlan_zero (env : SelectionEnv) (st : RunCounters) :
    runReusePlan env 0 st = reuseTerminal env st (nextProbe env st).1 := by
  rw [runReusePlan]

theorem runReusePlan_succ_loading (env : SelectionEnv) (f : Nat) (st : RunCounters)
    (h : (nextProbe env st).1 = .loading) :
    runReusePlan env (f + 1) st =
      (probeStep env .loading :: (runReusePlan env f (nextProbe env st).2).1,
        (runReusePlan env f (nextProbe env st).2).2.1,
        (runReusePlan env f (nextProbe env st).2).2.2) := by
  rw [runReusePlan, if_pos h]

theorem runReusePlan_succ_other (env : SelectionEnv) (f : Nat) (st : RunCounters)
    (h : (nextProbe env st).1 ≠ .loading) :
    runReusePlan env (f + 1) st = reuseTerminal env st (nextProbe env st).1 := by
  rw [runReusePlan, if_neg h]


theorem reuseTerminal_verify_iff (env : SelectionEnv) (st : RunCounters)
    (c : Classification) :
    ((∃ s ∈ (reuseTerminal env st c).1, s.kind = .runVerify) ↔
      (∃ s ∈ (reuseTerminal env st c).1, s.kind = .probe ∧
        s.probeClass = some .ready)) := by
  cases c
  · rw [reuseTerminal_ready]
    simp [probeStep, plainStep]
  · rw [reuseTerminal_other _ _ _ (by simp)]
    simp [probeStep]
  · rw [reuseTerminal_other _ _ _ (by simp)]
    simp [probeStep]
  · rw [reuseTerminal_other _ _ _ (by simp)]
    simp [probeStep]

theorem runReusePlan_verify_iff (env : SelectionEnv) :
    ∀ (fuel : Nat) (st : RunCounters),
      ((∃ s ∈ (runReusePlan env fuel st).1, s.kind = .runVerify) ↔
        (∃ s ∈ (runReusePlan env fuel st).1, s.kind = .probe ∧
          s.probeClass = some .ready)) := by
  intro fuel
  induction fuel with
  | zero =>
      intro st
      rw [runReusePlan_zero]
      exact reuseTerminal_verify_iff env st _
  | succ f ih =>
      intro st
      by_cases hc : (nextProbe env st).1 = .loading
      · rw [runReusePlan_succ_loading env f st hc]
        simp only [List.exists_mem_cons_iff, probeStep]
        simp [ih ((nextProbe env st).2)]
      · rw [runReusePlan_succ_other env f st hc]
        exact reuseTerminal_verify_iff env st _

theorem reuseTerminal_success_shape (env : SelectionEnv) (st : RunCounters)
    (c : Classification) (h : (reuseTerminal env st c).2.2 = true) :
    c = .ready ∧ (reuseTerminal env st c).1 =
      [probeStep env .ready, plainStep env .runVerify true] := by
  cases c
  · refine ⟨rfl, ?_⟩
    rw [reuseTerminal_ready] at h ⊢
    dsimp at h ⊢
    rw [h]
  · rw [reuseTerminal_other _ _ _ (by simp)] at h
    cases h
  · rw [reuseTerminal_other _ _ _ (by simp)] at h
    cases h
  · rw [reuseTerminal_other _ _ _ (by simp)] at h
    cases h

theorem runReusePlan_success_shape (env : SelectionEnv) :
    ∀ (fuel : Nat) (st : RunCounters), (runReusePlan env fuel st).2.2 = true →
    ∃ pre, (runReusePlan env fuel st).1 =
      pre ++ [probeStep env .ready, plainStep env .runVerify true] := by
  intro fuel
  induction fuel with
  | zero =>
      intro st h
      rw [runReusePlan_zero] at h ⊢
      obtain ⟨-, h2⟩ := reuseTerminal_success_shape env st _ h
      exact ⟨[], by simpa using h2⟩
  | succ f ih =>
      intro st h
      by_cases hc : (nextProbe env st).1 = .loading
      · rw [runReusePlan_succ_loading env f st hc] at h ⊢
        dsimp at h
        obtain ⟨pre, hp⟩ := ih _ h
        exact ⟨probeStep env .loading :: pre, by simp [hp]⟩
      · rw [runReusePlan_succ_other env f st hc] at h ⊢
        obtain ⟨-, h2⟩ := reuseTerminal_success_shape env st _ h
        exact ⟨[], by simpa using h2⟩

theorem reuseTerminal_fail_shape (env : SelectionEnv) (st : RunCounters)
    (c : Classification) (h : (reuseTerminal env st c).2.2 = false) :
    ∃ pre last, (reuseTerminal env st c).1 = pre ++ [last] ∧
      last.success = false := by
  cases c
  · rw [reuseTerminal_ready] at h ⊢
    dsimp at h
    exact ⟨[probeStep env .ready],
      plainStep env .runVerify (nextVerify env (nextProbe env st).2).1, rfl, h⟩
  · rw [reuseTerminal_other _ _ _ (by simp)]
    exact ⟨[], probeStep env .loading, rfl, rfl⟩
  · rw [reuseTerminal_other _ _ _ (by simp)]
    exact ⟨[], probeStep env .down, rfl, rfl⟩
  · rw [reuseTerminal_other _ _ _ (by simp)]
    exact ⟨[], probeStep env .unknown, rfl, rfl⟩

theorem runReusePlan_fail_shape (env : SelectionEnv) :
    ∀ (fuel : Nat) (st : RunCounters), (runReusePlan env fuel st).2.2 = false →
    ∃ pre last, (runReusePlan env fuel st).1 = pre ++ [last] ∧
      last.success = false := by
  intro fuel
  induction fuel with
  | zero =>
      intro st h
      rw [runReusePlan_zero] at h ⊢
      exact reuseTerminal_fail_shape env st _ h
  | succ f ih =>
      intro st h
      by_cases hc : (nextProbe env st).1 = .loading
      · rw [runReusePlan_succ_loading env f st hc] at h ⊢
        dsimp at h
        obtain ⟨pre, last, hp, hl⟩ := ih _ h
        exact ⟨probeStep env .loading :: pre, last, by simp [hp], hl⟩
      · rw [runReusePlan_succ_other env f st hc] at h ⊢
        exact reuseTerminal_fail_shape env st _ h

theorem runRestartPlan_success_shape (env : SelectionEnv) (st : RunCounters)
    (h : (runRestartPlan env st).2.2 = true) :
    env.startSucceeds = true ∧ (nextProbe env st).1 = .ready ∧
    (runRestartPlan env st).1 =
      [plainStep env .stopBackend env.stopSucceeds, plainStep env .startBackend true,
        plainStep env .wait true, probeStep env .ready, plainStep env .runVerify true] := by
  simp only [runRestartPlan] at h ⊢
  by_cases hs : env.startSucceeds
  · rw [if_pos hs] at h ⊢
    by_cases hp : (nextProbe env st).1 = .ready
    · rw [if_pos hp] at h ⊢
      dsimp at h
      rw [h]
      exact ⟨hs, hp, rfl⟩
    · rw [if_neg hp] at h
      cases h
  · rw [if_neg hs] at h
    cases h

theorem runRestartPlan_fail_shape (env : SelectionEnv) (st : RunCounters)
    (h : (runRestartPlan env st).2.2 = false) :
    ∃ pre last, (runRestartPlan env st).1 = pre ++ [last] ∧
      last.success = false := by
  simp only [runRestartPlan] at h ⊢
  by_cases hs : env.startSucceeds
  · rw [if_pos hs] at h ⊢
    by_cases hp : (nextProbe env st).1 = .ready
    · rw [if_pos hp] at h ⊢
      dsimp at h
      exact ⟨[plainStep env .stopBackend env.stopSucceeds,
        plainStep env .startBackend true, plainStep env .wait true,
        probeStep env .ready],
        plainStep env .runVerify (nextVerify env (nextProbe env st).2).1, rfl, h⟩
    · rw [if_neg hp]
      refine ⟨[plainStep env .stopBackend env.stopSucceeds,
        plainStep env .startBackend true, plainStep env .wait true],
        probeStep env (nextProbe env st).1, rfl, ?_⟩
      simp [probeStep, hp]
  · rw [if_neg hs]
    exact ⟨[plainStep env .stopBackend env.stopSucceeds],
      plainStep env .startBackend false, rfl, rfl⟩

theorem runRestartPlan_verify_iff (env : SelectionEnv) (st : RunCounters) :
    ((∃ s ∈ (runRestartPlan env st).1, s.kind = .runVerify) ↔
      (∃ s ∈ (runRestartPlan env st).1, s.kind = .probe ∧
        s.probeClass = some .ready)) := by
  simp only [runRestartPlan]
  by_cases hs : env.startSucceeds
  · rw [if_pos hs]
    by_cases hp : (nextProbe env st).1 = .ready
    · rw [if_pos hp]
      simp [probeStep, plainStep]
    · rw [if_neg hp]
      simp [probeStep, plainStep, hp]
  · rw [if_neg hs]
    simp [plainStep]


theorem find?_reverse_concat {α : Type} (p : α → Bool) (l : List α) (a : α)
    (h : p a = true) : ((l ++ [a]).reverse.find? p) = some a := by
  rw [List.reverse_append]
  simp only [List.reverse_cons, List.reverse_nil, List.nil_append,
    List.singleton_append]
  exact List.find?_cons_of_pos _ h

theorem findProbe_ends_ready (env : SelectionEnv) (pre : List ExecutedStep)
    (b : Bool) :
    ((pre ++ [probeStep env .ready, plainStep env .runVerify b]).reverse.find?
      (fun s => s.kind == .probe)) = some (probeStep env .ready) := by
  have hsplit : pre ++ [probeStep env .ready, plainStep env .runVerify b] =
      (pre ++ [probeStep env .ready]) ++ [plainStep env .runVerify b] := by simp
  rw [hsplit, List.reverse_append]
  simp only [List.reverse_cons, List.reverse_nil, List.nil_append,
    List.singleton_append]
  rw [List.find?_cons_of_neg _ (by simp [plainStep])]
  exact find?_reverse_concat _ _ _ (by simp [probeStep])

theorem lastProbeClass_single_ready (env : SelectionEnv) (pre : List ExecutedStep)
    (b : Bool) :
    lastProbeClass [pre ++ [probeStep env .ready, plainStep env .runVerify b]] =
      some .ready := by
  unfold lastProbeClass
  simp only [List.flatten_cons, List.flatten_nil, List.append_nil]
  rw [findProbe_ends_ready]
  rfl

theorem lastProbeClass_two_restart (env : SelectionEnv) (tr1 : List ExecutedStep)
    (b : Bool) :
    lastProbeClass [tr1,
      [plainStep env .stopBackend env.stopSucceeds, plainStep env .startBackend true,
        plainStep env .wait true, probeStep env .ready, plainStep env .runVerify b]] =
      some .ready := by
  unfold lastProbeClass
  simp only [List.flatten_cons, List.flatten_nil, List.append_nil]
  have hsplit : tr1 ++
      [plainStep env .stopBackend env.stopSucceeds, plainStep env .startBackend true,
        plainStep env .wait true, probeStep env .ready, plainStep env .runVerify b] =
      (tr1 ++ [plainStep env .stopBackend env.stopSucceeds,
        plainStep env .startBackend true, plainStep env .wait true]) ++
        [probeStep env .ready, plainStep env .runVerify b] := by simp
  rw [hsplit, findProbe_ends_ready]
  rfl

theorem lastFailedStep_single (pre : List ExecutedStep) (last : ExecutedStep)
    (hl : last.success = false) :
    lastFailedStep [pre ++ [last]] = some last := by
  unfold lastFailedStep
  simp only [List.flatten_cons, List.flatten_nil, List.append_nil]
  exact find?_reverse_concat _ _ _ (by simp [hl])

theorem lastFailedStep_two (tr1 pre : List ExecutedStep) (last : ExecutedStep)
    (hl : last.success = false) :
    lastFailedStep [tr1, pre ++ [last]] = some last := by
  unfold lastFailedStep
  simp only [List.flatten_cons, List.flatten_nil, List.append_nil]
  have hsplit : tr1 ++ (pre ++ [last]) = (tr1 ++ pre) ++ [last] := by simp
  rw [hsplit]
  exact find?_reverse_concat _ _ _ (by simp [hl])

theorem select_forced (env : SelectionEnv) :
    select env .forcedRestart =
      { strategy := .forcedRestart,
        executedPlans := [(runRestartPlan env ⟨0, 0⟩).1],
        success := (runRestartPlan env ⟨0, 0⟩).2.2,
        final := if (runRestartPlan env ⟨0, 0⟩).2.2
          then lastProbeClass [(runRestartPlan env ⟨0, 0⟩).1] else none } := rfl

theorem select_reuse_eq (env : SelectionEnv) :
    select env .reusePreferred =
      (if (runReusePlan env env.loadingRetries ⟨0, 0⟩).2.2 then
        { strategy := .reuse,
          executedPlans := [(runReusePlan env env.loadingRetries ⟨0, 0⟩).1],
          success := true,
          final := lastProbeClass [(runReusePlan env env.loadingRetries ⟨0, 0⟩).1] }
      else
        { strategy := .restart,
          executedPlans := [(runReusePlan env env.loadingRetries ⟨0, 0⟩).1,
            (runRestartPlan env (runReusePlan env env.loadingRetries ⟨0, 0⟩).2.1).1],
          success :=
            (runRestartPlan env (runReusePlan env env.loadingRetries ⟨0, 0⟩).2.1).2.2,
          final :=
            if (runRestartPlan env (runReusePlan env env.loadingRetries ⟨0, 0⟩).2.1).2.2
            then lastProbeClass [(runReusePlan env env.loadingRetries ⟨0, 0⟩).1,
              (runRestartPlan env (runReusePlan env env.loadingRetries ⟨0, 0⟩).2.1).1]
            else none }) := rfl


/-- C4: plan choice changes at most once per selection run: at most two plans
ever execute, a forced restart executes exactly one, two plans execute only
on the reuse-to-restart fallback (strategy then records the restart after
failed reuse), and a failure of the substituted restart plan is terminal —
the decision is a failure with no further plan. -/
theorem select_single_fallback (env : SelectionEnv) (intent : Intent) :
    (select env intent).executedPlans.length ≤ 2 ∧
    (intent = .forcedRestart → (select env intent).executedPlans.length = 1) ∧
    ((select env intent).executedPlans.length = 2 →
      intent = .reusePreferred ∧ (select env intent).strategy = .restart) ∧
    (∀ tr1 st1, runReusePlan env env.loadingRetries ⟨0, 0⟩ = (tr1, st1, false) →
      ∀ tr2 st2, runRestartPlan env st1 = (tr2, st2, false) →
      select env .reusePreferred =
        { strategy := .restart, executedPlans := [tr1, tr2],
          success := false, final := none }) := by
  refine ⟨?_, ?_, ?_, ?_⟩
  · cases intent
    · rw [select_reuse_eq env]
      by_cases hb : (runReusePlan env env.loadingRetries ⟨0, 0⟩).2.2 = true
      · rw [if_pos hb]
        simp
      · rw [if_neg hb]
        simp
    · rw [select_forced env]
      simp
  · intro hint
    subst hint
    rw [select_forced env]
    rfl
  · intro hlen
    cases intent
    · refine ⟨rfl, ?_⟩
      rw [select_reuse_eq env] at hlen ⊢
      by_cases hb : (runReusePlan env env.loadingRetries ⟨0, 0⟩).2.2 = true
      · rw [if_pos hb] at hlen
        simp at hlen
      · rw [if_neg hb]
    · rw [select_forced env] at hlen
      simp at hlen
  · intro tr1 st1 hr1 tr2 st2 hr2
    rw [select_reuse_eq env, hr1]
    dsimp only
    rw [if_neg (by simp)]
    rw [hr2]
    dsimp only
    rw [if_neg (by simp)]

def selEnvC : SelectionEnv :=
  { probeOutcomes := [.down, .unknown], stopSucceeds := true, startSucceeds := true,
    verifyOutcomes := [], loadingRetries := 2, stepDetail := fun _ => " boom " }

/-- Concrete failed-fallback run: reuse probes down, the single fallback
restart probes unknown, and the whole operation terminates in failure. -/
theorem select_single_fallback_witness :
    select selEnvC .reusePreferred =
      { strategy := .restart,
        executedPlans := [[probeStep selEnvC .down],
          [plainStep selEnvC .stopBackend true, plainStep selEnvC .startBackend true,
            plainStep selEnvC .wait true, probeStep selEnvC .unknown]],
        success := false, final := none } :=
  (select_single_fallback selEnvC .reusePreferred).2.2.2
    [probeStep selEnvC .down] ⟨1, 0⟩ rfl
    [plainStep selEnvC .stopBackend true, plainStep selEnvC .startBackend true,
      plainStep selEnvC .wait true, probeStep selEnvC .unknown] ⟨2, 0⟩ rfl

/-- C5: in every executed plan, `run_verify` is executed exactly when a probe
of that plan classified the backend `ready` (judged reachable), whether the
plan reused or restarted; and a reuse plan whose probe classifies `down`
never attempts `run_verify` — the run transitions to a restart plan and the
decision records the restarted-after-failed-reuse strategy. -/
theorem select_verify_iff_reachable (env : SelectionEnv) (intent : Intent) :
    (∀ tr ∈ (select env intent).executedPlans,
      ((∃ s ∈ tr, s.kind = .runVerify) ↔
        (∃ s ∈ tr, s.kind = .probe ∧ s.probeClass = some .ready))) ∧
    (env.probeOutcomes.getD 0 .down = .down →
      ∃ tr1 rest, (select env .reusePreferred).executedPlans = tr1 :: rest ∧
        (¬ ∃ s ∈ tr1, s.kind = .runVerify) ∧
        (select env .reusePreferred).strategy = .restart ∧ rest ≠ []) := by
  constructor
  · intro tr htr
    cases intent
    · rw [select_reuse_eq env] at htr
      by_cases hb : (runReusePlan env env.loadingRetries ⟨0, 0⟩).2.2 = true
      · rw [if_pos hb] at htr
        simp only [List.mem_singleton] at htr
        subst htr
        exact runReusePlan_verify_iff env _ _
      · rw [if_neg hb] at htr
        simp only [List.mem_cons, List.mem_singleton, List.not_mem_nil, or_false]
          at htr
        rcases htr with rfl | rfl
        · exact runReusePlan_verify_iff env _ _
        · exact runRestartPlan_verify_iff env _
    · rw [select_forced env] at htr
      simp only [List.mem_singleton] at htr
      subst htr
      exact runRestartPlan_verify_iff env _
  · intro hd
    have hnp : (nextProbe env ⟨0, 0⟩).1 = .down := by
      dsimp only [nextProbe]
      exact hd
    have hr : runReusePlan env env.loadingRetries ⟨0, 0⟩ =
        ([probeStep env .down], (nextProbe env ⟨0, 0⟩).2, false) := by
      cases hf : env.loadingRetries with
      | zero =>
          rw [runReusePlan_zero, hnp, reuseTerminal_other _ _ _ (by simp)]
      | succ f =>
          rw [runReusePlan_succ_other env f _ (by rw [hnp]; simp), hnp,
            reuseTerminal_other _ _ _ (by simp)]
    rw [select_reuse_eq env, hr]
    dsimp only
    rw [if_neg (by simp)]
    refine ⟨[probeStep env .down],
      [(runRestartPlan env (nextProbe env ⟨0, 0⟩).2).1], rfl, ?_, rfl, by simp⟩
    simp [probeStep]

def selEnvD : SelectionEnv :=
  { probeOutcomes := [.down, .ready], stopSucceeds := true, startSucceeds := true,
    verifyOutcomes := [true], loadingRetries := 2, stepDetail := fun _ => " boom " }

/-- Concrete down-probe reuse attempt: the decision records a restart after
the failed reuse. -/
theorem select_verify_iff_reachable_witness :
    (select selEnvD .reusePreferred).strategy = .restart := by
  obtain ⟨tr1, rest, h1, h2, h3, h4⟩ :=
    (select_verify_iff_reachable selEnvD .reusePreferred).2 rfl
  exact h3

/-- C6: a forced-restart selection never invokes a reuse probe: exactly one
plan executes, its recorded steps are an initial segment of the restart plan
shape stop, start, wait, probe, run_verify, and the first recorded step is
the stop step — never a bare probe. -/
theorem select_forced_restart_shape (env : SelectionEnv) :
    restartPlanKinds = [.stopBackend, .startBackend, .wait, .probe, .runVerify] ∧
    (select env .forcedRestart).strategy = .forcedRestart ∧
    ∃ tr, (select env .forcedRestart).executedPlans = [tr] ∧
      (∃ k, tr.map (fun s => s.kind) = restartPlanKinds.take k) ∧
      tr.head?.map (fun s => s.kind) = some .stopBackend := by
  refine ⟨rfl, by rw [select_forced env], ?_⟩
  refine ⟨(runRestartPlan env ⟨0, 0⟩).1, by rw [select_forced env], ?_, ?_⟩
  · simp only [runRestartPlan]
    by_cases hs : env.startSucceeds
    · rw [if_pos hs]
      by_cases hp : (nextProbe env ⟨0, 0⟩).1 = .ready
      · rw [if_pos hp]
        exact ⟨5, by simp [probeStep, plainStep, restartPlanKinds]⟩
      · rw [if_neg hp]
        exact ⟨4, by simp [probeStep, plainStep, restartPlanKinds]⟩
    · rw [if_neg hs]
      exact ⟨2, by simp [plainStep, restartPlanKinds]⟩
  · simp only [runRestartPlan]
    by_cases hs : env.startSucceeds
    · rw [if_pos hs]
      by_cases hp : (nextProbe env ⟨0, 0⟩).1 = .ready
      · rw [if_pos hp]
        rfl
      · rw [if_neg hp]
        rfl
    · rw [if_neg hs]
      rfl

/-- Concrete forced restart: the strategy is the forced restart and one plan
runs, led by the stop step. -/
theorem select_forced_restart_shape_witness :
    (select selEnvD .forcedRestart).strategy = .forcedRestart :=
  (select_forced_restart_shape selEnvD).2.1


theorem select_success_final (env : SelectionEnv) (intent : Intent) :
    ((select env intent).success = true → (select env intent).final = some .ready) ∧
    ((select env intent).success = false → (select env intent).final = none) ∧
    ((select env intent).success = false →
      ∃ last, lastFailedStep (select env intent).executedPlans = some last ∧
        last.success = false) := by
  cases intent
  · rw [select_reuse_eq env]
    by_cases hb : (runReusePlan env env.loadingRetries ⟨0, 0⟩).2.2 = true
    · rw [if_pos hb]
      refine ⟨fun _ => ?_, fun hfalse => by simp at hfalse,
        fun hfalse => by simp at hfalse⟩
      obtain ⟨pre, hp⟩ := runReusePlan_success_shape env _ _ hb
      dsimp only
      rw [hp, lastProbeClass_single_ready]
    · rw [if_neg hb]
      have hb0 : (runReusePlan env env.loadingRetries ⟨0, 0⟩).2.2 = false := by
        cases h2 : (runReusePlan env env.loadingRetries ⟨0, 0⟩).2.2
        · rfl
        · exact absurd h2 hb
      by_cases hb2 :
        (runRestartPlan env (runReusePlan env env.loadingRetries ⟨0, 0⟩).2.1).2.2 = true
      · refine ⟨fun _ => ?_, fun hfalse => ?_, fun hfalse => ?_⟩
        · dsimp only
          rw [if_pos hb2]
          obtain ⟨hs, hp, htr⟩ := runRestartPlan_success_shape env _ hb2
          rw [htr]
          exact lastProbeClass_two_restart env _ true
        · dsimp only at hfalse
          rw [hb2] at hfalse
          simp at hfalse
        · dsimp only at hfalse
          rw [hb2] at hfalse
          simp at hfalse
      · have hb2f :
            (runRestartPlan env (runReusePlan env env.loadingRetries ⟨0, 0⟩).2.1).2.2 =
              false := by
          cases h2 :
            (runRestartPlan env (runReusePlan env env.loadingRetries ⟨0, 0⟩).2.1).2.2
          · rfl
          · exact absurd h2 hb2
        refine ⟨fun htrue => ?_, fun _ => ?_, fun _ => ?_⟩
        · dsimp only at htrue
          rw [hb2f] at htrue
          simp at htrue
        · dsimp only
          rw [if_neg hb2]
        · dsimp only
          obtain ⟨pre2, last, htr2, hl⟩ := runRestartPlan_fail_shape env _ hb2f
          refine ⟨last, ?_, hl⟩
          rw [htr2]
          exact lastFailedStep_two _ _ _ hl
  · rw [select_forced env]
    by_cases hb : (runRestartPlan env ⟨0, 0⟩).2.2 = true
    · refine ⟨fun _ => ?_, fun hfalse => ?_, fun hfalse => ?_⟩
      · dsimp only
        rw [if_pos hb]
        obtain ⟨hs, hp, htr⟩ := runRestartPlan_success_shape env _ hb
        rw [htr]
        have hsplit : [plainStep env .stopBackend env.stopSucceeds,
            plainStep env .startBackend true, plainStep env .wait true,
            probeStep env .ready, plainStep env .runVerify true] =
            [plainStep env .stopBackend env.stopSucceeds,
              plainStep env .startBackend true, plainStep env .wait true] ++
              [probeStep env .ready, plainStep env .runVerify true] := rfl
        rw [hsplit]
        exact lastProbeClass_single_ready env _ true
      · dsimp only at hfalse
        rw [hb] at hfalse
        simp at hfalse
      · dsimp only at hfalse
        rw [hb] at hfalse
        simp at hfalse
    · have hbf : (runRestartPlan env ⟨0, 0⟩).2.2 = false := by
        cases h2 : (runRestartPlan env ⟨0, 0⟩).2.2
        · rfl
        · exact absurd h2 hb
      refine ⟨fun htrue => ?_, fun _ => ?_, fun _ => ?_⟩
      · dsimp only at htrue
        rw [hbf] at htrue
        simp at htrue
      · dsimp only
        rw [if_neg hb]
      · dsimp only
        obtain ⟨pre2, last, htr2, hl⟩ := runRestartPlan_fail_shape env _ hbf
        refine ⟨last, ?_, hl⟩
        rw [htr2]
        exact lastFailedStep_single _ _ hl

/-- C7: the select command exits zero exactly when the final classification
after plan execution is `ready` (equivalently, when the run succeeded);
every other terminal state, a failed fallback restart included, exits
non-zero and prints the trimmed failure detail of the last failed step. -/
theorem select_command_exit (env : SelectionEnv) (intent : Intent) :
    ((selectCommand env intent).1 = 0 ↔ (select env intent).final = some .ready) ∧
    ((select env intent).final = some .ready ↔ (select env intent).success = true) ∧
    ((selectCommand env intent).1 ≠ 0 →
      ∃ last, lastFailedStep (select env intent).executedPlans = some last ∧
        last.success = false ∧ (selectCommand env intent).2 = jsTrim last.detail) := by
  obtain ⟨f1, f2, f3⟩ := select_success_final env intent
  have hfs : (select env intent).final = some .ready ↔
      (select env intent).success = true := by
    constructor
    · intro hf
      cases hsucc : (select env intent).success
      · rw [f2 hsucc] at hf
        cases hf
      · rfl
    · exact f1
  refine ⟨?_, hfs, ?_⟩
  · by_cases hf : (select env intent).final = some .ready
    · simp [selectCommand, hf]
    · simp [selectCommand, hf]
  · intro hne
    have hf : ¬ (select env intent).final = some .ready := by
      intro hf
      apply hne
      simp [selectCommand, hf]
    have hsucc : (select env intent).success = false := by
      cases hsucc : (select env intent).success
      · rfl
      · exact absurd (f1 hsucc) hf
    obtain ⟨last, hlast, hl⟩ := f3 hsucc
    refine ⟨last, hlast, hl, ?_⟩
    simp only [selectCommand]
    rw [if_neg hf, hlast]
    rfl

def selEnvB : SelectionEnv :=
  { probeOutcomes := [], stopSucceeds := true, startSucceeds := true,
    verifyOutcomes := [], loadingRetries := 0, stepDetail := fun _ => " boom " }

/-- Concrete failing select run: non-zero exit, and the printed text is the
trimmed detail of the last failed step. -/
theorem select_command_exit_witness :
    ∃ last, lastFailedStep (select selEnvB .forcedRestart).executedPlans = some last ∧
      last.success = false ∧
      (selectCommand selEnvB .forcedRestart).2 = jsTrim last.detail :=
  (select_command_exit selEnvB .forcedRestart).2.2 (by decide)

end IdleHands
